import Mathlib

/-!
Verification of the streaming session subsystem of a chat server.

The definitions below are shallow embeddings of the TypeScript source:
JavaScript strings become `List Char` / `String`, the helper regexes are
modelled character by character, the database is a pure list of records,
and the asynchronous stream of generated fragments is a list together
with an optional failure.
-/

namespace LlmWebChat

/-! ## Character classes used by the JavaScript helpers -/

/-- The characters matched by the JavaScript regex class `\s` (ASCII part). -/
def isJsSpace (c : Char) : Bool :=
  c = ' ' || c = '\t' || c = '\n' || c = '\r' || c = '\x0b' || c = '\x0c'

/-- The quote characters stripped by `enforceOneSentenceSummary`. -/
def isQuoteChar (c : Char) : Bool :=
  c = '\x22' || c = '\x27' || c = '\x60'

/-- The sentence terminators from the regex class `[.!?]`. -/
def isSentenceEnd (c : Char) : Bool :=
  c = '.' || c = '!' || c = '?'

/-- The characters of the regex class `[{};]` used by the summary gate. -/
def isCodeChar (c : Char) : Bool :=
  c = '\x7b' || c = '\x7d' || c = ';'

/-- First character is an ASCII uppercase letter, as tested by `/^[A-Z]/`. -/
def startsUpperAZ : List Char → Bool
  | [] => false
  | c :: _ => decide ('A' ≤ c ∧ c ≤ 'Z')

/-! ## String helpers: trim, whitespace collapse, word splitting -/

/-- JavaScript `String.prototype.trim` on the character list. -/
def jsTrim (l : List Char) : List Char :=
  (((l.dropWhile isJsSpace).reverse).dropWhile isJsSpace).reverse

/-- Worker for `wordsOf`: the accumulator holds the current word reversed. -/
def wordsAux (acc : List Char) : List Char → List (List Char)
  | [] => if acc.isEmpty then [] else [acc.reverse]
  | c :: rest =>
    if isJsSpace c then
      if acc.isEmpty then wordsAux [] rest
      else acc.reverse :: wordsAux [] rest
    else wordsAux (c :: acc) rest

/-- The non-empty maximal runs of non-whitespace characters: the result of
the JavaScript idiom `s.split(/\s+/).filter(Boolean)`. -/
def wordsOf (l : List Char) : List (List Char) :=
  wordsAux [] l

/-- Worker for `collapseWs`; the flag records whether the previous character
was whitespace. -/
def collapseWsAux : Bool → List Char → List Char
  | _, [] => []
  | prevSpace, c :: rest =>
    if isJsSpace c then
      if prevSpace then collapseWsAux true rest
      else ' ' :: collapseWsAux true rest
    else c :: collapseWsAux false rest

/-- JavaScript `s.replace(/\s+/g, ' ')`: each maximal whitespace run becomes
a single space. -/
def collapseWs (l : List Char) : List Char :=
  collapseWsAux false l

/-- JavaScript `Array.prototype.join(' ')` on a list of words. -/
def joinWithSpace : List (List Char) → List Char
  | [] => []
  | [w] => w
  | w :: v :: ws => w ++ ' ' :: joinWithSpace (v :: ws)

/-- Does the pattern occur at the head of the list? -/
def startsWithChars : List Char → List Char → Bool
  | [], _ => true
  | _ :: _, [] => false
  | p :: ps, c :: cs => p = c && startsWithChars ps cs

/-- JavaScript `String.prototype.includes`: the pattern occurs somewhere. -/
def containsSeq (pat : List Char) : List Char → Bool
  | [] => startsWithChars pat []
  | c :: rest => startsWithChars pat (c :: rest) || containsSeq pat rest

/-- The code-fence marker looked for by the summary gate. -/
def fenceMarker : List Char := ['\x60', '\x60', '\x60']

/-- The literal `"http"` looked for by the summary gate. -/
def httpMarker : List Char := ['h', 't', 't', 'p']

/-! ## Summary Classifier: `firstSentenceOf` and `isDecentSummary`
(`apps/server/src/index.ts`, inside the `/messages` route) -/

/-- Scanner for the regex `^(.+?[.!?])( |\n|$)` with the `/s` flag: the
accumulator holds, reversed, the characters consumed so far.  The lazy
quantifier means the first position whose character is a terminator,
which is preceded by at least one character and followed by a space, a
newline or the end of input, ends the captured group. -/
def regexScan (acc : List Char) : List Char → Option (List Char)
  | [] => none
  | c :: rest =>
    if isSentenceEnd c && !acc.isEmpty &&
        (rest.isEmpty || rest.head? = some ' ' || rest.head? = some '\n') then
      some ((c :: acc).reverse)
    else regexScan (c :: acc) rest

/-- `firstSentenceOf` from the `/messages` route:
`(text.trim().match(/^(.+?[.!?])( |\n|$)/s)?.[1] ?? text.trim())
  .replace(/\s+/g, ' ').trim()`. -/
def firstSentenceOf (s : String) : String :=
  let t := jsTrim s.data
  String.mk (jsTrim (collapseWs ((regexScan [] t).getD t)))

/-- `isDecentSummary` from the `/messages` route, with its early-return
chain of checks. -/
def isDecentSummary (s : String) : Bool :=
  let l := s.data
  if (wordsOf l).length < 3 || (wordsOf l).length > 60 then false
  else if l.length < 15 || l.length > 300 then false
  else if containsSeq fenceMarker l || containsSeq httpMarker l then false
  else if l.any isCodeChar then false
  else if !startsUpperAZ l then false
  else true

/-- The adequacy gate exactly as the specification words it: word count in
[3,60], character length in [15,300], no code fence and no literal
"http", none of the three code-ish characters, and an uppercase first
letter. -/
def decentSummarySpec (s : String) : Prop :=
  3 ≤ (wordsOf s.data).length ∧ (wordsOf s.data).length ≤ 60 ∧
  15 ≤ s.data.length ∧ s.data.length ≤ 300 ∧
  containsSeq fenceMarker s.data = false ∧
  containsSeq httpMarker s.data = false ∧
  (∀ c ∈ s.data, isCodeChar c = false) ∧
  startsUpperAZ s.data = true

/-! ## The specification-side readings of the leading-sentence extractor -/

/-- The claim's reading of `extractLeadingSentence`: cut after the first
occurrence of a terminator character, whatever follows it. -/
def leadingSentenceClaim (s : String) : String :=
  let t := jsTrim s.data
  match t.findIdx? isSentenceEnd with
  | some i => String.mk (jsTrim (collapseWs (t.take (i + 1))))
  | none => String.mk (jsTrim t)

/-- Position `m` is a cut point for the sentence regex on `t`: at least one
character precedes it, its last character is a terminator, and it is
followed by a space, a newline or the end of the text. -/
def qualifiesB (t : List Char) (m : Nat) : Bool :=
  decide (2 ≤ m) && decide (m ≤ t.length) &&
  isSentenceEnd (t.getD (m - 1) 'x') &&
  (decide (m = t.length) || decide (t.getD m 'x' = ' ') || decide (t.getD m 'x' = '\n'))

/-- Bounded search for the least qualifying cut position at or after `m`. -/
def firstQualFrom (t : List Char) : Nat → Nat → Option Nat
  | 0, _ => none
  | fuel + 1, m => if qualifiesB t m then some m else firstQualFrom t fuel (m + 1)

/-- The amended reading of `extractLeadingSentence`: cut at the least
qualifying position of the trimmed text, whitespace-normalized; fall back
to the whole trimmed, whitespace-normalized text. -/
def extractLeadingSentenceSpec (s : String) : String :=
  let t := jsTrim s.data
  match firstQualFrom t (t.length + 1) 0 with
  | some m => String.mk (jsTrim (collapseWs (t.take m)))
  | none => String.mk (jsTrim (collapseWs t))

/-! ## `enforceOneSentenceSummary` and `summarizeText`
(`apps/server/src/bedrock.ts`) -/

/-- `enforceOneSentenceSummary` from `bedrock.ts`: keep the text before the
first terminator, trim it, keep at most the first 12 whitespace-separated
tokens, strip quote characters, and guarantee a trailing period, with a
fixed fallback sentence when nothing usable remains. -/
def enforceOneSentenceSummary (s : String) : String :=
  let firstSentence := s.data.takeWhile (fun c => !isSentenceEnd c)
  let ws := (wordsOf (jsTrim firstSentence)).take 12
  let out := jsTrim ((joinWithSpace ws).filter (fun c => !isQuoteChar c))
  if out.isEmpty then "Here is a brief overview."
  else if out.getLast? = some '.' then String.mk out
  else String.mk (out ++ ['.'])

/-- `summarizeText` from `bedrock.ts`: the summarizer model call may fail
(its promise reject is not caught there); on success its raw text goes
through the coercion step. -/
def summarizeText (raw : Except String String) : Except String String :=
  raw.map enforceOneSentenceSummary

/-! ## Model catalog (`apps/server/src/config/models.ts`) -/

structure ModelInfo where
  id : String
  name : String
deriving DecidableEq, Repr

def MODEL_CATALOG : List ModelInfo :=
  [⟨"anthropic.claude-sonnet-4-20250514-v1:0", "Claude 4 Sonnet"⟩,
   ⟨"anthropic.claude-3-5-sonnet-20241022-v2:0", "Claude 3.5 Sonnet"⟩,
   ⟨"anthropic.claude-3-haiku-20240307-v1:0", "Claude 3 Haiku"⟩,
   ⟨"meta.llama-3.1-405b-instruct-v1:0", "Llama 3.1 405B"⟩]

def SUPPORTED_MODEL_IDS : List String := MODEL_CATALOG.map (fun m => m.id)

/-! ## Data model: chats, messages, the store -/

structure Chat where
  id : String
  name : String
  modelId : String
deriving DecidableEq, Repr

structure Msg where
  id : String
  chatId : String
  role : String
  content : String
  summary : Option String
  createdAt : Nat
deriving DecidableEq, Repr

structure Env where
  chats : List Chat
  messages : List Msg
deriving DecidableEq, Repr

def findChat (env : Env) (cid : String) : Option Chat :=
  env.chats.find? (fun c => c.id == cid)

/-! ## The generation capability (`generateWithBedrockStream`) -/

structure ChatMessageM where
  role : String
  content : String
deriving DecidableEq, Repr

/-- One event of the response stream as seen after `JSON.parse`: either it
parsed, carrying its `type`, optional `delta.type` and `delta.text`, or
parsing failed (the code logs and skips it). -/
inductive RawChunk where
  | parsed (ctype : String) (deltaType : Option String) (deltaText : String)
  | unparsable
deriving DecidableEq, Repr

/-- The text deltas extracted from the response stream: only chunks with
`type = content_block_delta` and `delta.type = text_delta` yield text. -/
def extractDeltas : List RawChunk → List String
  | [] => []
  | .parsed ctype dty txt :: rest =>
    if ctype = "content_block_delta" && dty = some "text_delta" then
      txt :: extractDeltas rest
    else extractDeltas rest
  | .unparsable :: rest => extractDeltas rest

/-- JavaScript truthiness of an optional environment variable. -/
def jsTruthyStr : Option String → Bool
  | none => false
  | some s => !s.isEmpty

/-- Worker for `jsSplitSpace`. -/
def splitOnSpaceAux (cur : List Char) : List Char → List (List Char)
  | [] => [cur.reverse]
  | c :: rest =>
    if c = ' ' then cur.reverse :: splitOnSpaceAux [] rest
    else splitOnSpaceAux (c :: cur) rest

/-- JavaScript `s.split(' ')`. -/
def jsSplitSpace (s : String) : List String :=
  (splitOnSpaceAux [] s.data).map String.mk

/-- The lazily produced fragments of one chat turn, as the orchestrator
consumes them: the fragments actually yielded, then an optional failure
raised by the sequence. -/
structure StreamOut where
  fragments : List String
  failure : Option String
deriving DecidableEq, Repr

/-- `generateWithBedrockStream` from `bedrock.ts`.  The backend response
stream is modelled by the chunks it delivered and an optional failure of
the `send` call or of the stream iteration; the generator catches that
failure itself and yields a fixed error sentence instead of throwing. -/
def generateWithBedrockStream (mockMode : Bool) (inferenceProfileArn : Option String)
    (modelId : String) (conversation : List ChatMessageM)
    (backendChunks : List RawChunk) (backendFailure : Option String) : StreamOut :=
  if mockMode then
    let lastContent := match conversation.getLast? with
      | some m => m.content
      | none => "undefined"
    let mockResponse :=
      "[Mock Streaming Response] I received your message: \x22" ++ lastContent ++ "\x22"
    ⟨(jsSplitSpace mockResponse).map (fun w => w ++ " "), none⟩
  else if modelId = "" then ⟨["Model ID is missing."], none⟩
  else if jsTruthyStr inferenceProfileArn || startsWithChars "anthropic.".data modelId.data then
    ⟨extractDeltas backendChunks ++
      (match backendFailure with
       | some _ => ["Error occurred during streaming response."]
       | none => []), none⟩
  else
    ⟨["This model is not yet supported for streaming in the server. Try an Anthropic model."],
     none⟩

/-! ## Chat Turn Orchestrator (`handleStreamingChat` in `index.ts`) -/

inductive Frame where
  | ready
  | start (messageId : String)
  | chunk (messageId : String) (text : String)
  | complete (messageId : String) (responseId : String) (summary : String)
  | error (err : String)
  | pong
deriving DecidableEq, Repr

def isErrorFrame : Frame → Bool
  | .error _ => true
  | _ => false

def isCompleteFrame : Frame → Bool
  | .complete _ _ _ => true
  | _ => false

/-- JavaScript falsiness of a possibly absent string field. -/
def jsFalsy : Option String → Bool
  | none => true
  | some s => s.isEmpty

/-- The first sentence computed inline in `handleStreamingChat`:
`fullResponse.trim().match(/^(.+?[.!?])( |\n|$)/s)?.[1] ?? fullResponse.trim()`
(note: without the whitespace normalization `firstSentenceOf` performs). -/
def inlineFirstSentence (full : String) : String :=
  String.mk ((regexScan [] (jsTrim full.data)).getD (jsTrim full.data))

/-- The inline adequacy test of `handleStreamingChat` on the first
sentence: truthy, length in [15,300], word count in [3,60], no fence, no
"http", no code-ish character, uppercase start. -/
def streamSummaryHeuristic (fs : String) : Bool :=
  !fs.data.isEmpty &&
  decide (15 ≤ fs.data.length) && decide (fs.data.length ≤ 300) &&
  decide (3 ≤ (wordsOf fs.data).length) && decide ((wordsOf fs.data).length ≤ 60) &&
  !containsSeq fenceMarker fs.data && !containsSeq httpMarker fs.data &&
  !fs.data.any isCodeChar && startsUpperAZ fs.data

/-- `handleStreamingChat`: validation, user-message persistence, fragment
forwarding, summary computation, assistant-message persistence and the
final frame.  `gen` is the fragment sequence the orchestrator iterates
(failures of the iteration are caught by the surrounding `try`), and
`summarizer` the outcome of the `summarizeText` call when it is made. -/
def handleStreamingChat (env : Env) (chatId content : Option String)
    (messageId responseId : String) (now responseTime : Nat)
    (gen : StreamOut) (summarizer : Except String String) : List Frame × Env :=
  if jsFalsy chatId || jsFalsy content then
    ([Frame.error "Missing chatId or content"], env)
  else
    match findChat env (chatId.getD "") with
    | none => ([Frame.error "Chat not found"], env)
    | some chat =>
      if !(SUPPORTED_MODEL_IDS.contains chat.modelId) then
        ([Frame.error "Unsupported model for this chat"], env)
      else
        let userMsg : Msg := ⟨messageId, chatId.getD "", "user", content.getD "", none, now⟩
        let env1 : Env := ⟨env.chats, env.messages ++ [userMsg]⟩
        let chunkFrames := gen.fragments.map (fun t => Frame.chunk messageId t)
        let fullResponse := String.join gen.fragments
        match gen.failure with
        | some e => (Frame.start messageId :: chunkFrames ++ [Frame.error e], env1)
        | none =>
          let fs := inlineFirstSentence fullResponse
          if streamSummaryHeuristic fs then
            let summary := if fs.data.getLast? = some '.' then fs else fs ++ "."
            let aMsg : Msg :=
              ⟨responseId, chatId.getD "", "assistant", fullResponse, some summary, responseTime⟩
            (Frame.start messageId :: chunkFrames ++
               [Frame.complete messageId responseId summary],
             ⟨env.chats, env1.messages ++ [aMsg]⟩)
          else
            match summarizer with
            | .error e => (Frame.start messageId :: chunkFrames ++ [Frame.error e], env1)
            | .ok summary =>
              let aMsg : Msg :=
                ⟨responseId, chatId.getD "", "assistant", fullResponse, some summary, responseTime⟩
              (Frame.start messageId :: chunkFrames ++
                 [Frame.complete messageId responseId summary],
               ⟨env.chats, env1.messages ++ [aMsg]⟩)

/-! ## Frame Queue Adapter (`wsToAudioStream` in `index.ts`) -/

structure AudioState where
  queue : List (List Nat)
  done : Bool
deriving DecidableEq, Repr

def audioInit : AudioState := ⟨[], false⟩

/-- `push(b) { queue.push(b); }` — appends unconditionally. -/
def audioPush (s : AudioState) (b : List Nat) : AudioState :=
  ⟨s.queue ++ [b], s.done⟩

/-- `end() { done = true; }` -/
def audioEnd (s : AudioState) : AudioState :=
  ⟨s.queue, true⟩

def audioPushMany (s : AudioState) (bs : List (List Nat)) : AudioState :=
  bs.foldl audioPush s

inductive PullStepResult where
  | yieldChunk (b : List Nat) (s : AudioState)
  | wait (s : AudioState)
  | stop
deriving DecidableEq, Repr

/-- One iteration of the adapter's async iterator loop
`while (!done || queue.length) { const chunk = queue.shift();
  if (chunk) yield ...; else await sleep; }`. -/
def pullStep (s : AudioState) : PullStepResult :=
  if !s.done || !s.queue.isEmpty then
    match s.queue with
    | b :: rest => .yieldChunk b ⟨rest, s.done⟩
    | [] => .wait s
  else .stop

/-- Run the iterator for at most `n` steps, collecting the yielded chunks
and whether the loop exited. -/
def runPulls : Nat → AudioState → List (List Nat) × Bool
  | 0, _ => ([], false)
  | n + 1, s =>
    match pullStep s with
    | .stop => ([], true)
    | .wait s2 => runPulls n s2
    | .yieldChunk b s2 =>
      let r := runPulls n s2
      (b :: r.1, r.2)

/-! ## Session Multiplexer (`Bun.serve` handlers in `index.ts`) -/

/-- The `message` handler's view of an incoming frame, after the content
tests the code performs (`instanceof Uint8Array`, the literal strings,
`JSON.parse` and the parsed `type` field). -/
inductive MsgData where
  | binary (b : List Nat)
  | endText
  | pingText
  | jsonChat (chatId content : Option String)
  | jsonOther
  | notJson
deriving DecidableEq, Repr

inductive DispatchAction where
  | audioPush (b : List Nat)
  | audioEnd
  | sendPong
  | runChatTurn (chatId content : Option String)
  | sendInvalidJson
  | noop
deriving DecidableEq, Repr

/-- The `open` handler attaches an audio adapter exactly when the
connection was upgraded on `/ws/stt`. -/
def sessionHasAudio (connectionType : String) : Bool :=
  connectionType = "stt"

/-- The `message` handler: binary frames and the `END` sentinel act on the
audio adapter when one exists (`ws.audio?.push` / `ws.audio?.end` are
no-ops otherwise); `PING` always answers `pong`; a parsed JSON frame with
`type = chat` always starts a chat turn; unparsable text answers an
`Invalid JSON` error. -/
def messageDispatch (hasAudio : Bool) (d : MsgData) : DispatchAction :=
  match d with
  | .binary b => if hasAudio then .audioPush b else .noop
  | .endText => if hasAudio then .audioEnd else .noop
  | .pingText => .sendPong
  | .jsonChat cid ct => .runChatTurn cid ct
  | .jsonOther => .noop
  | .notJson => .sendInvalidJson

/-! ## Frame Queue Adapter lemmas -/

theorem audioPushMany_eq (q : List (List Nat)) (d : Bool) (bs : List (List Nat)) :
    audioPushMany ⟨q, d⟩ bs = ⟨q ++ bs, d⟩ := by
  induction bs generalizing q with
  | nil => simp [audioPushMany]
  | cons b bs ih =>
    simp only [audioPushMany, List.foldl_cons] at *
    rw [show audioPush ⟨q, d⟩ b = (⟨q ++ [b], d⟩ : AudioState) from rfl, ih]
    simp

theorem runPulls_ended (q : List (List Nat)) :
    runPulls (q.length + 1) ⟨q, true⟩ = (q, true) := by
  induction q with
  | nil => rfl
  | cons b rest ih =>
    have hst : runPulls (rest.length + 1 + 1) ⟨b :: rest, true⟩
        = (b :: (runPulls (rest.length + 1) ⟨rest, true⟩).1,
           (runPulls (rest.length + 1) ⟨rest, true⟩).2) := rfl
    simp only [List.length_cons, hst, ih]

/-- C2: pushing chunks b1..bk and then ending the Frame Queue Adapter gives
a pull sequence that yields exactly those chunks, in FIFO order with their
boundaries intact, and then stops; in particular each of the k+1 pull
steps is productive (none waits), and a pull on an ended empty adapter
stops immediately. -/
theorem frameQueueAdapter_fifo_and_terminates (bs : List (List Nat)) :
    runPulls (bs.length + 1) (audioEnd (audioPushMany audioInit bs)) = (bs, true) ∧
    pullStep ⟨[], true⟩ = .stop := by
  constructor
  · rw [show audioInit = (⟨[], false⟩ : AudioState) from rfl, audioPushMany_eq]
    simp only [List.nil_append]
    exact runPulls_ended bs
  · rfl

/-- C8 counterexample: a push performed after `end()` is not ignored — it
changes the adapter state (the queue grows) and the pushed chunk is
yielded by the next pulls before the sequence terminates. -/
theorem pushAfterEnd_counterexample :
    audioPush (audioEnd audioInit) [42] ≠ audioEnd audioInit ∧
    runPulls 2 (audioPush (audioEnd audioInit) [42]) = ([[42]], true) := by
  exact ⟨by decide, rfl⟩

/-- C8 amended: a push after `end()` still enqueues its chunk at the back
of the queue, and the pull sequence yields it (after the chunks already
queued) before terminating. -/
theorem pushAfterEnd_enqueues (q : List (List Nat)) (b : List Nat) :
    audioPush ⟨q, true⟩ b = ⟨q ++ [b], true⟩ ∧
    runPulls (q.length + 2) (audioPush ⟨q, true⟩ b) = (q ++ [b], true) := by
  refine ⟨rfl, ?_⟩
  rw [show audioPush ⟨q, true⟩ b = (⟨q ++ [b], true⟩ : AudioState) from rfl]
  rw [show q.length + 2 = (q ++ [b]).length + 1 by simp]
  exact runPulls_ended (q ++ [b])

/-! ## Session Multiplexer dispatch -/

/-- C9 counterexample: on a connection opened as an audio session
(`/ws/stt`), a JSON text frame with `type = chat` is still dispatched to
the Chat Turn Orchestrator — frame handling is not fixed by session kind. -/
theorem dispatch_audioSession_chat_counterexample :
    sessionHasAudio "stt" = true ∧
    messageDispatch (sessionHasAudio "stt") (.jsonChat (some "c1") (some "Hi")) =
      .runChatTurn (some "c1") (some "Hi") :=
  ⟨rfl, rfl⟩

/-- C9 amended: the session kind fixed at open time decides only the audio
side: on a chat session (no adapter) binary frames and the `END` sentinel
are no-ops, while on an audio session they feed the adapter; but `PING`
is answered with `pong` on either session kind, and a JSON `chat` frame
starts a chat turn on either session kind. -/
theorem dispatch_by_content (hasAudio : Bool) (b : List Nat) (cid ct : Option String) :
    messageDispatch false (.binary b) = .noop ∧
    messageDispatch false .endText = .noop ∧
    messageDispatch true (.binary b) = .audioPush b ∧
    messageDispatch true .endText = .audioEnd ∧
    messageDispatch hasAudio .pingText = .sendPong ∧
    messageDispatch hasAudio (.jsonChat cid ct) = .runChatTurn cid ct :=
  ⟨rfl, rfl, rfl, rfl, rfl, rfl⟩

/-! ## Chat Turn Orchestrator lemmas -/

theorem chunkFrames_no_error (mid : String) (frags : List String) :
    (frags.map (fun t => Frame.chunk mid t)).filter isErrorFrame = [] := by
  induction frags with
  | nil => rfl
  | cons f fs ih => simp [isErrorFrame, ih]

theorem chunkFrames_no_complete (mid : String) (frags : List String) :
    (frags.map (fun t => Frame.chunk mid t)).filter isCompleteFrame = [] := by
  induction frags with
  | nil => rfl
  | cons f fs ih => simp [isCompleteFrame, ih]

theorem handleStreamingChat_genFailure (env : Env) (cid ct : Option String)
    (mid rid : String) (now rt : Nat) (gen : StreamOut) (summ : Except String String)
    (chat : Chat) (e : String)
    (h1 : jsFalsy cid = false) (h2 : jsFalsy ct = false)
    (h3 : findChat env (cid.getD "") = some chat)
    (h4 : SUPPORTED_MODEL_IDS.contains chat.modelId = true)
    (hf : gen.failure = some e) :
    handleStreamingChat env cid ct mid rid now rt gen summ =
      (Frame.start mid :: gen.fragments.map (fun t => Frame.chunk mid t) ++ [Frame.error e],
       ⟨env.chats, env.messages ++ [⟨mid, cid.getD "", "user", ct.getD "", none, now⟩]⟩) := by
  obtain ⟨frags, fl⟩ := gen
  simp only [StreamOut.failure] at hf
  subst hf
  unfold handleStreamingChat
  rw [h1, h2]
  simp only [Bool.or_self, Bool.false_eq_true, if_false, h3, h4, Bool.not_true,
    Bool.false_eq_true, if_false]

theorem handleStreamingChat_summFailure (env : Env) (cid ct : Option String)
    (mid rid : String) (now rt : Nat) (frags : List String)
    (chat : Chat) (e : String)
    (h1 : jsFalsy cid = false) (h2 : jsFalsy ct = false)
    (h3 : findChat env (cid.getD "") = some chat)
    (h4 : SUPPORTED_MODEL_IDS.contains chat.modelId = true)
    (hh : streamSummaryHeuristic (inlineFirstSentence (String.join frags)) = false) :
    handleStreamingChat env cid ct mid rid now rt ⟨frags, none⟩ (Except.error e) =
      (Frame.start mid :: frags.map (fun t => Frame.chunk mid t) ++ [Frame.error e],
       ⟨env.chats, env.messages ++ [⟨mid, cid.getD "", "user", ct.getD "", none, now⟩]⟩) := by
  unfold handleStreamingChat
  rw [h1, h2]
  simp only [Bool.or_self, Bool.false_eq_true, if_false, h3, h4, Bool.not_true,
    Bool.false_eq_true, if_false, hh]

theorem handleStreamingChat_heuristicSummary (env : Env) (cid ct : Option String)
    (mid rid : String) (now rt : Nat) (frags : List String) (summ : Except String String)
    (chat : Chat)
    (h1 : jsFalsy cid = false) (h2 : jsFalsy ct = false)
    (h3 : findChat env (cid.getD "") = some chat)
    (h4 : SUPPORTED_MODEL_IDS.contains chat.modelId = true)
    (hh : streamSummaryHeuristic (inlineFirstSentence (String.join frags)) = true) :
    handleStreamingChat env cid ct mid rid now rt ⟨frags, none⟩ summ =
      (let fs := inlineFirstSentence (String.join frags)
       let summary := if fs.data.getLast? = some '.' then fs else fs ++ "."
       (Frame.start mid :: frags.map (fun t => Frame.chunk mid t) ++
          [Frame.complete mid rid summary],
        ⟨env.chats,
         env.messages ++
           [⟨mid, cid.getD "", "user", ct.getD "", none, now⟩,
            ⟨rid, cid.getD "", "assistant", String.join frags, some summary, rt⟩]⟩)) := by
  unfold handleStreamingChat
  rw [h1, h2]
  simp only [Bool.or_self, Bool.false_eq_true, if_false, h3, h4, Bool.not_true,
    Bool.false_eq_true, if_false, hh, if_true, List.append_assoc, List.cons_append,
    List.nil_append]

theorem handleStreamingChat_okSummary (env : Env) (cid ct : Option String)
    (mid rid : String) (now rt : Nat) (frags : List String) (s : String)
    (chat : Chat)
    (h1 : jsFalsy cid = false) (h2 : jsFalsy ct = false)
    (h3 : findChat env (cid.getD "") = some chat)
    (h4 : SUPPORTED_MODEL_IDS.contains chat.modelId = true)
    (hh : streamSummaryHeuristic (inlineFirstSentence (String.join frags)) = false) :
    handleStreamingChat env cid ct mid rid now rt ⟨frags, none⟩ (Except.ok s) =
      (Frame.start mid :: frags.map (fun t => Frame.chunk mid t) ++
         [Frame.complete mid rid s],
       ⟨env.chats,
        env.messages ++
          [⟨mid, cid.getD "", "user", ct.getD "", none, now⟩,
           ⟨rid, cid.getD "", "assistant", String.join frags, some s, rt⟩]⟩) := by
  unfold handleStreamingChat
  rw [h1, h2]
  simp only [Bool.or_self, Bool.false_eq_true, if_false, h3, h4, Bool.not_true,
    Bool.false_eq_true, if_false, hh, List.append_assoc, List.cons_append,
    List.nil_append]

/-- C3: each of the three validation failures makes the orchestrator emit
exactly the corresponding single `error` frame and leave the store
untouched — no user or assistant message is persisted and no
start/chunk/complete frame is sent. -/
theorem validation_rejects_without_side_effects (env : Env) (cid ct : Option String)
    (mid rid : String) (now rt : Nat) (gen : StreamOut) (summ : Except String String) :
    ((jsFalsy cid || jsFalsy ct) = true →
      handleStreamingChat env cid ct mid rid now rt gen summ =
        ([Frame.error "Missing chatId or content"], env)) ∧
    ((jsFalsy cid || jsFalsy ct) = false → findChat env (cid.getD "") = none →
      handleStreamingChat env cid ct mid rid now rt gen summ =
        ([Frame.error "Chat not found"], env)) ∧
    (∀ chat : Chat, (jsFalsy cid || jsFalsy ct) = false →
      findChat env (cid.getD "") = some chat →
      SUPPORTED_MODEL_IDS.contains chat.modelId = false →
      handleStreamingChat env cid ct mid rid now rt gen summ =
        ([Frame.error "Unsupported model for this chat"], env)) := by
  refine ⟨fun h => ?_, fun h1 h2 => ?_, fun chat h1 h2 h3 => ?_⟩
  · unfold handleStreamingChat
    rw [if_pos h]
  · unfold handleStreamingChat
    rw [if_neg (by simp [h1]), h2]
  · unfold handleStreamingChat
    rw [if_neg (by simp [h1]), h2]
    simp only [h3, Bool.not_false, if_true]

/-- C3 witness: a `chat` frame naming a chat id absent from the store is
answered by exactly one `Chat not found` error frame and persists nothing. -/
theorem validation_rejects_without_side_effects_witness :
    handleStreamingChat
        ⟨[⟨"c3a", "T", "anthropic.claude-3-haiku-20240307-v1:0"⟩], []⟩
        (some "nope") (some "Hi") "m3" "r3" 0 1 ⟨["x"], none⟩ (Except.ok "S.") =
      ([Frame.error "Chat not found"],
       ⟨[⟨"c3a", "T", "anthropic.claude-3-haiku-20240307-v1:0"⟩], []⟩) :=
  (validation_rejects_without_side_effects
      ⟨[⟨"c3a", "T", "anthropic.claude-3-haiku-20240307-v1:0"⟩], []⟩
      (some "nope") (some "Hi") "m3" "r3" 0 1 ⟨["x"], none⟩ (Except.ok "S.")).2.1
    (by decide) (by decide)

/-- C4: when the fragment sequence fails, or the summarizer call fails
after the heuristic rejected the leading sentence, the orchestrator emits
exactly one `error` frame carrying the stringified failure, persists no
assistant message for the turn, keeps the already persisted user message,
and still returns normally (the failure is absorbed, not propagated). -/
theorem turnFailure_single_error_no_assistant (env : Env) (cid ct : Option String)
    (mid rid : String) (now rt : Nat) (gen : StreamOut) (summ : Except String String)
    (chat : Chat) (e : String)
    (h1 : jsFalsy cid = false) (h2 : jsFalsy ct = false)
    (h3 : findChat env (cid.getD "") = some chat)
    (h4 : SUPPORTED_MODEL_IDS.contains chat.modelId = true)
    (h5 : gen.failure = some e ∨
      (gen.failure = none ∧
        streamSummaryHeuristic (inlineFirstSentence (String.join gen.fragments)) = false ∧
        summ = Except.error e)) :
    handleStreamingChat env cid ct mid rid now rt gen summ =
      (Frame.start mid :: gen.fragments.map (fun t => Frame.chunk mid t) ++ [Frame.error e],
       ⟨env.chats, env.messages ++ [⟨mid, cid.getD "", "user", ct.getD "", none, now⟩]⟩) ∧
    (handleStreamingChat env cid ct mid rid now rt gen summ).1.filter isErrorFrame
      = [Frame.error e] ∧
    (∀ m ∈ (handleStreamingChat env cid ct mid rid now rt gen summ).2.messages,
      m.role = "assistant" → m ∈ env.messages) ∧
    (⟨mid, cid.getD "", "user", ct.getD "", none, now⟩ : Msg)
      ∈ (handleStreamingChat env cid ct mid rid now rt gen summ).2.messages := by
  have heq : handleStreamingChat env cid ct mid rid now rt gen summ =
      (Frame.start mid :: gen.fragments.map (fun t => Frame.chunk mid t) ++ [Frame.error e],
       ⟨env.chats, env.messages ++ [⟨mid, cid.getD "", "user", ct.getD "", none, now⟩]⟩) := by
    rcases h5 with hf | ⟨hf, hh, hs⟩
    · exact handleStreamingChat_genFailure env cid ct mid rid now rt gen summ chat e
        h1 h2 h3 h4 hf
    · obtain ⟨frags, fl⟩ := gen
      simp only [StreamOut.failure] at hf
      simp only [StreamOut.fragments] at hh
      subst hf hs
      exact handleStreamingChat_summFailure env cid ct mid rid now rt frags chat e
        h1 h2 h3 h4 hh
  refine ⟨heq, ?_, ?_, ?_⟩
  · rw [heq]
    simp only [List.cons_append, List.filter_cons, List.filter_append]
    simp [isErrorFrame, chunkFrames_no_error]
  · rw [heq]
    intro m hm hrole
    simp only [List.mem_append, List.mem_singleton] at hm
    rcases hm with hm | hm
    · exact hm
    · subst hm
      simp at hrole
  · rw [heq]
    simp

/-- C4 witness: a concrete valid turn whose fragment sequence fails after
one fragment ends in a lone error frame carrying the failure, with only
the user message added to the store. -/
theorem turnFailure_single_error_no_assistant_witness :
    handleStreamingChat ⟨[⟨"c4a", "T", "anthropic.claude-3-haiku-20240307-v1:0"⟩], []⟩
        (some "c4a") (some "Hi") "m4" "r4" 0 1 ⟨["partial "], some "Error: backend down"⟩
        (Except.ok "S.") =
      (Frame.start "m4" :: [Frame.chunk "m4" "partial "] ++
         [Frame.error "Error: backend down"],
       ⟨[⟨"c4a", "T", "anthropic.claude-3-haiku-20240307-v1:0"⟩],
        [] ++ [⟨"m4", "c4a", "user", "Hi", none, 0⟩]⟩) :=
  (turnFailure_single_error_no_assistant
      ⟨[⟨"c4a", "T", "anthropic.claude-3-haiku-20240307-v1:0"⟩], []⟩
      (some "c4a") (some "Hi") "m4" "r4" 0 1 ⟨["partial "], some "Error: backend down"⟩
      (Except.ok "S.") ⟨"c4a", "T", "anthropic.claude-3-haiku-20240307-v1:0"⟩
      "Error: backend down" (by decide) (by decide) (by decide) (by decide)
      (Or.inl rfl)).1

/-- C1 counterexample: a validated turn whose stream yields the fragment
"hi" but whose summarizer call fails produces `start`, `chunk`, `error` —
no `complete` frame at all and no persisted assistant message — although
the generation stream yielded its fragments normally. -/
theorem streamingTurn_counterexample :
    handleStreamingChat ⟨[⟨"c1", "Test", "anthropic.claude-3-haiku-20240307-v1:0"⟩], []⟩
        (some "c1") (some "hi") "m1" "r1" 0 1 ⟨["hi"], none⟩ (Except.error "boom") =
      ([Frame.start "m1", Frame.chunk "m1" "hi", Frame.error "boom"],
       ⟨[⟨"c1", "Test", "anthropic.claude-3-haiku-20240307-v1:0"⟩],
        [⟨"m1", "c1", "user", "hi", none, 0⟩]⟩) ∧
    (handleStreamingChat ⟨[⟨"c1", "Test", "anthropic.claude-3-haiku-20240307-v1:0"⟩], []⟩
        (some "c1") (some "hi") "m1" "r1" 0 1 ⟨["hi"], none⟩
        (Except.error "boom")).1.filter isCompleteFrame = [] ∧
    findChat ⟨[⟨"c1", "Test", "anthropic.claude-3-haiku-20240307-v1:0"⟩], []⟩ "c1" =
      some ⟨"c1", "Test", "anthropic.claude-3-haiku-20240307-v1:0"⟩ ∧
    SUPPORTED_MODEL_IDS.contains "anthropic.claude-3-haiku-20240307-v1:0" = true :=
  ⟨rfl, rfl, rfl, rfl⟩

/-- C1 amended: for every validated turn whose stream yields fragments
f1..fn without failing, and whose summarization step succeeds (either the
leading-sentence heuristic accepts, or the summarizer call returns), the
frames are exactly one `start`, one `chunk` per fragment in order, then
one `complete`, and the concatenation of the fragments is the content of
the newly persisted assistant message carrying `responseId`. -/
theorem streamingTurn_frames_and_persistence (env : Env) (cid ct : Option String)
    (mid rid : String) (now rt : Nat) (frags : List String) (summ : Except String String)
    (chat : Chat)
    (h1 : jsFalsy cid = false) (h2 : jsFalsy ct = false)
    (h3 : findChat env (cid.getD "") = some chat)
    (h4 : SUPPORTED_MODEL_IDS.contains chat.modelId = true)
    (h5 : streamSummaryHeuristic (inlineFirstSentence (String.join frags)) = true ∨
      ∃ s, summ = Except.ok s) :
    ∃ summary,
      handleStreamingChat env cid ct mid rid now rt ⟨frags, none⟩ summ =
        (Frame.start mid :: frags.map (fun t => Frame.chunk mid t) ++
           [Frame.complete mid rid summary],
         ⟨env.chats,
          env.messages ++
            [⟨mid, cid.getD "", "user", ct.getD "", none, now⟩,
             ⟨rid, cid.getD "", "assistant", String.join frags, some summary, rt⟩]⟩) := by
  by_cases hh : streamSummaryHeuristic (inlineFirstSentence (String.join frags)) = true
  · refine ⟨if (inlineFirstSentence (String.join frags)).data.getLast? = some '.' then
        inlineFirstSentence (String.join frags)
      else inlineFirstSentence (String.join frags) ++ ".", ?_⟩
    exact handleStreamingChat_heuristicSummary env cid ct mid rid now rt frags summ chat
      h1 h2 h3 h4 hh
  · have hh' : streamSummaryHeuristic (inlineFirstSentence (String.join frags)) = false := by
      simpa using hh
    rcases h5 with h5 | ⟨s, hs⟩
    · exact absurd h5 hh
    · subst hs
      exact ⟨s, handleStreamingChat_okSummary env cid ct mid rid now rt frags s chat
        h1 h2 h3 h4 hh'⟩

/-- C1 witness: a concrete validated turn with two fragments and a
successful summarizer call. -/
theorem streamingTurn_frames_and_persistence_witness :
    ∃ summary,
      handleStreamingChat ⟨[⟨"c1b", "T", "anthropic.claude-3-5-sonnet-20241022-v2:0"⟩], []⟩
          (some "c1b") (some "Hi") "m1b" "r1b" 0 1
          ⟨["lowercase so the heuristic rejects ", "this text"], none⟩
          (Except.ok "Neat summary it is.") =
        (Frame.start "m1b" ::
           (["lowercase so the heuristic rejects ", "this text"].map
             (fun t => Frame.chunk "m1b" t)) ++
           [Frame.complete "m1b" "r1b" summary],
         ⟨[⟨"c1b", "T", "anthropic.claude-3-5-sonnet-20241022-v2:0"⟩],
          [] ++ [⟨"m1b", "c1b", "user", "Hi", none, 0⟩,
                 ⟨"r1b", "c1b", "assistant",
                  String.join ["lowercase so the heuristic rejects ", "this text"],
                  some summary, 1⟩]⟩) :=
  streamingTurn_frames_and_persistence
    ⟨[⟨"c1b", "T", "anthropic.claude-3-5-sonnet-20241022-v2:0"⟩], []⟩
    (some "c1b") (some "Hi") "m1b" "r1b" 0 1
    ["lowercase so the heuristic rejects ", "this text"] (Except.ok "Neat summary it is.")
    ⟨"c1b", "T", "anthropic.claude-3-5-sonnet-20241022-v2:0"⟩
    (by decide) (by decide) (by decide) (by decide)
    (Or.inr ⟨"Neat summary it is.", rfl⟩)

theorem supported_model_ne_empty (m : String)
    (h : SUPPORTED_MODEL_IDS.contains m = true) : m ≠ "" := by
  intro hm
  subst hm
  exact absurd h (by decide)

/-- C10: the streaming generation capability never raises to its caller —
every outcome (mock, missing model id, unsupported provider, backend
chunks, backend failure) ends with `failure = none`; and on a validated
turn whose backend streaming call fails, the one yielded fragment is the
fixed error sentence, so the orchestrator completes the turn: it emits a
`complete` frame (no `error` frame) and persists an assistant message
whose content is that error sentence. -/
theorem streamBackendFailure_completes_turn :
    (∀ (mock : Bool) (ipa : Option String) (modelId : String)
       (conv : List ChatMessageM) (chunks : List RawChunk) (bfail : Option String),
       (generateWithBedrockStream mock ipa modelId conv chunks bfail).failure = none) ∧
    (∀ (env : Env) (cid ct : Option String) (mid rid : String) (now rt : Nat)
       (summ : Except String String) (chat : Chat) (e : String) (ipa : Option String)
       (conv : List ChatMessageM),
       jsFalsy cid = false → jsFalsy ct = false →
       findChat env (cid.getD "") = some chat →
       SUPPORTED_MODEL_IDS.contains chat.modelId = true →
       (jsTruthyStr ipa || startsWithChars "anthropic.".data chat.modelId.data) = true →
       handleStreamingChat env cid ct mid rid now rt
           (generateWithBedrockStream false ipa chat.modelId conv [] (some e)) summ =
         ([Frame.start mid,
           Frame.chunk mid "Error occurred during streaming response.",
           Frame.complete mid rid "Error occurred during streaming response."],
          ⟨env.chats,
           env.messages ++
             [⟨mid, cid.getD "", "user", ct.getD "", none, now⟩,
              ⟨rid, cid.getD "", "assistant", "Error occurred during streaming response.",
               some "Error occurred during streaming response.", rt⟩]⟩) ∧
       (handleStreamingChat env cid ct mid rid now rt
           (generateWithBedrockStream false ipa chat.modelId conv [] (some e)) summ).1.filter
           isErrorFrame = []) := by
  constructor
  · intro mock ipa modelId conv chunks bfail
    unfold generateWithBedrockStream
    split
    · rfl
    · split
      · rfl
      · split
        · rfl
        · rfl
  · intro env cid ct mid rid now rt summ chat e ipa conv h1 h2 h3 h4 hbr
    have hne : chat.modelId ≠ "" := supported_model_ne_empty chat.modelId h4
    have hgen : generateWithBedrockStream false ipa chat.modelId conv [] (some e) =
        ⟨["Error occurred during streaming response."], none⟩ := by
      unfold generateWithBedrockStream
      rw [if_neg (by simp), if_neg hne, if_pos hbr]
      rfl
    rw [hgen]
    have heq := handleStreamingChat_heuristicSummary env cid ct mid rid now rt
      ["Error occurred during streaming response."] summ chat h1 h2 h3 h4 (by rfl)
    refine ⟨?_, ?_⟩
    · rw [heq]
      rfl
    · rw [heq]
      rfl

/-- C10 witness: a concrete validated turn against an Anthropic model whose
backend stream call fails. -/
theorem streamBackendFailure_completes_turn_witness :
    handleStreamingChat ⟨[⟨"cX", "T", "anthropic.claude-3-haiku-20240307-v1:0"⟩], []⟩
        (some "cX") (some "Hi") "mX" "rX" 0 1
        (generateWithBedrockStream false none "anthropic.claude-3-haiku-20240307-v1:0" []
          [] (some "Error: send failed"))
        (Except.ok "S.") =
      ([Frame.start "mX",
        Frame.chunk "mX" "Error occurred during streaming response.",
        Frame.complete "mX" "rX" "Error occurred during streaming response."],
       ⟨[⟨"cX", "T", "anthropic.claude-3-haiku-20240307-v1:0"⟩],
        [] ++ [⟨"mX", "cX", "user", "Hi", none, 0⟩,
               ⟨"rX", "cX", "assistant", "Error occurred during streaming response.",
                some "Error occurred during streaming response.", 1⟩]⟩) :=
  (streamBackendFailure_completes_turn.2
    ⟨[⟨"cX", "T", "anthropic.claude-3-haiku-20240307-v1:0"⟩], []⟩
    (some "cX") (some "Hi") "mX" "rX" 0 1 (Except.ok "S.")
    ⟨"cX", "T", "anthropic.claude-3-haiku-20240307-v1:0"⟩ "Error: send failed" none []
    (by decide) (by decide) (by decide) (by decide) (by decide)).1

/-! ## Summary Classifier: the adequacy gate -/

/-- C5: the adequacy gate accepts exactly the strings with word count in
[3,60], character length in [15,300], no code fence and no literal
"http", none of the characters of the class `[{};]`, and an ASCII
uppercase first letter; and it decides the three examples of the
specification as stated. -/
theorem adequacyGate_iff :
    (∀ s : String, isDecentSummary s = true ↔ decentSummarySpec s) ∧
    isDecentSummary "Here is an overview of async generators." = true ∧
    isDecentSummary "ok" = false ∧
    isDecentSummary "see http://x.com for details." = false := by
  refine ⟨fun s => ?_, rfl, rfl, rfl⟩
  unfold isDecentSummary decentSummarySpec
  constructor
  · intro h
    dsimp only at h
    split_ifs at h with h1 h2 h3 h4 h5
    simp only [Bool.or_eq_true, decide_eq_true_eq, not_or] at h1 h2 h3
    refine ⟨by omega, by omega, by omega, by omega, ?_, ?_, ?_, ?_⟩
    · simpa using h3.1
    · simpa using h3.2
    · intro c hc
      by_contra hcc
      exact h4 (List.any_eq_true.mpr ⟨c, hc, by simpa using hcc⟩)
    · simpa using h5
  · rintro ⟨a1, a2, a3, a4, a5, a6, a7, a8⟩
    dsimp only
    split_ifs with h1 h2 h3 h4 h5
    · simp only [Bool.or_eq_true, decide_eq_true_eq] at h1
      omega
    · simp only [Bool.or_eq_true, decide_eq_true_eq] at h2
      omega
    · simp only [Bool.or_eq_true] at h3
      rcases h3 with h3 | h3
      · rw [a5] at h3
        exact absurd h3 (by simp)
      · rw [a6] at h3
        exact absurd h3 (by simp)
    · rcases List.any_eq_true.mp h4 with ⟨c, hc, hcc⟩
      rw [a7 c hc] at hcc
      exact absurd hcc (by simp)
    · rw [a8] at h5
      exact absurd h5 (by simp)
    · rfl

/-! ## Leading-sentence extraction: scanner versus least-cut-point search -/

theorem qualifiesB_at (acc : List Char) (c : Char) (rest : List Char) :
    qualifiesB (acc.reverse ++ c :: rest) (acc.length + 1) =
      (isSentenceEnd c && !acc.isEmpty &&
        (rest.isEmpty || decide (rest.head? = some ' ') || decide (rest.head? = some '\n'))) := by
  unfold qualifiesB
  have h2 : decide (2 ≤ acc.length + 1) = !acc.isEmpty := by
    cases acc <;> simp
  have hle : decide (acc.length + 1 ≤ (acc.reverse ++ c :: rest).length) = true := by
    simp
  have hget1 : (acc.reverse ++ c :: rest).getD (acc.length + 1 - 1) 'x' = c := by
    have h := List.getD_append_right acc.reverse (c :: rest) 'x' acc.length (by simp)
    simpa using h
  rw [h2, hle, hget1]
  cases rest with
  | nil =>
    have hlen : decide (acc.length + 1 = (acc.reverse ++ [c]).length) = true := by
      simp
    have hg2 : (acc.reverse ++ [c]).getD (acc.length + 1) 'x' = 'x' := by
      apply List.getD_eq_default
      simp
    rw [hlen, hg2]
    simp [Bool.and_comm, Bool.and_left_comm, Bool.and_assoc]
  | cons d rest2 =>
    have hlen : decide (acc.length + 1 = (acc.reverse ++ c :: d :: rest2).length) = false := by
      simp only [List.length_append, List.length_reverse, List.length_cons,
        decide_eq_false_iff_not]
      omega
    have hget2 : (acc.reverse ++ c :: d :: rest2).getD (acc.length + 1) 'x' = d := by
      have h := List.getD_append_right acc.reverse (c :: d :: rest2) 'x' (acc.length + 1)
        (by simp)
      simpa using h
    have hh1 : decide ((d :: rest2).head? = some ' ') = decide (d = ' ') := by
      simp
    have hh2 : decide ((d :: rest2).head? = some '\n') = decide (d = '\n') := by
      simp
    rw [hlen, hget2, hh1, hh2]
    simp [Bool.and_comm, Bool.and_left_comm, Bool.and_assoc]

theorem regexScan_eq_firstQualFrom :
    ∀ (rest acc : List Char),
      regexScan acc rest =
        (firstQualFrom (acc.reverse ++ rest) rest.length (acc.length + 1)).map
          (fun m => (acc.reverse ++ rest).take m) := by
  intro rest
  induction rest with
  | nil => intro acc; rfl
  | cons c rest ih =>
    intro acc
    have hL : regexScan acc (c :: rest) =
        (if (isSentenceEnd c && !acc.isEmpty &&
            (rest.isEmpty || decide (rest.head? = some ' ') ||
              decide (rest.head? = some '\n'))) then some ((c :: acc).reverse)
         else regexScan (c :: acc) rest) := rfl
    have hR : firstQualFrom (acc.reverse ++ c :: rest) (rest.length + 1) (acc.length + 1) =
        (if qualifiesB (acc.reverse ++ c :: rest) (acc.length + 1) then some (acc.length + 1)
         else firstQualFrom (acc.reverse ++ c :: rest) rest.length (acc.length + 2)) := rfl
    rw [List.length_cons, hL, hR, qualifiesB_at]
    by_cases hc : (isSentenceEnd c && !acc.isEmpty &&
        (rest.isEmpty || decide (rest.head? = some ' ') ||
          decide (rest.head? = some '\n'))) = true
    · rw [if_pos hc, if_pos hc]
      have htake : (acc.reverse ++ c :: rest).take (acc.length + 1) = (c :: acc).reverse := by
        have h1 : acc.length + 1 = acc.reverse.length + 1 := by simp
        rw [h1, List.take_append]
        simp
      simp [htake]
    · rw [if_neg hc, if_neg hc]
      have hrw : acc.reverse ++ c :: rest = (c :: acc).reverse ++ rest := by
        simp
      rw [hrw]
      have h := ih (c :: acc)
      simpa using h

theorem qualifiesB_zero (t : List Char) : qualifiesB t 0 = false := by
  simp [qualifiesB]

theorem firstSentenceOf_eq_spec (s : String) :
    firstSentenceOf s = extractLeadingSentenceSpec s := by
  unfold firstSentenceOf extractLeadingSentenceSpec
  dsimp only
  have hq : firstQualFrom (jsTrim s.data) ((jsTrim s.data).length + 1) 0 =
      firstQualFrom (jsTrim s.data) (jsTrim s.data).length 1 := by
    have h0 : firstQualFrom (jsTrim s.data) ((jsTrim s.data).length + 1) 0 =
        (if qualifiesB (jsTrim s.data) 0 then some 0
         else firstQualFrom (jsTrim s.data) (jsTrim s.data).length 1) := rfl
    rw [h0, qualifiesB_zero]
    simp
  rw [hq]
  have hscan := regexScan_eq_firstQualFrom (jsTrim s.data) []
  simp only [List.reverse_nil, List.nil_append, List.length_nil, Nat.zero_add] at hscan
  rw [hscan]
  cases hfq : firstQualFrom (jsTrim s.data) (jsTrim s.data).length 1 with
  | none => simp
  | some m => simp

/-- C6 counterexample: on the input "e.g. done" the code's extractor does
not cut at the first terminator occurrence — the claim's reading yields
"e." while `firstSentenceOf` yields "e.g.", because the regex
`^(.+?[.!?])( |\n|$)` requires the terminator to be followed by a space,
a newline or the end of the text. -/
theorem leadingSentence_counterexample :
    leadingSentenceClaim "e.g. done" = "e." ∧
    firstSentenceOf "e.g. done" = "e.g." ∧
    firstSentenceOf "e.g. done" ≠ leadingSentenceClaim "e.g. done" :=
  ⟨rfl, rfl, by decide⟩

/-- C6 amended: the extractor returns, whitespace-normalized, the shortest
prefix of the trimmed text that has at least one character before a
terminator `.`/`!`/`?` which is immediately followed by a space, a
newline or the end of the text; if no such cut point exists it returns
the whole trimmed text, whitespace-normalized.  The specification's two
examples hold as stated. -/
theorem leadingSentence_extraction :
    (∀ s : String, firstSentenceOf s = extractLeadingSentenceSpec s) ∧
    firstSentenceOf "Hello world. Next part." = "Hello world." ∧
    firstSentenceOf "no terminator here" = "no terminator here" :=
  ⟨firstSentenceOf_eq_spec, rfl, rfl⟩

/-! ## Word-structure lemmas for the summary coercion -/

theorem wordsAux_append_word (w : List Char) (hw : ∀ c ∈ w, isJsSpace c = false) :
    ∀ (acc l : List Char), wordsAux acc (w ++ l) = wordsAux (w.reverse ++ acc) l := by
  induction w with
  | nil => intro acc l; simp
  | cons c w ih =>
    intro acc l
    have hc : isJsSpace c = false := hw c (by simp)
    have hw2 : ∀ d ∈ w, isJsSpace d = false := fun d hd => hw d (by simp [hd])
    simp only [List.cons_append, wordsAux, hc, Bool.false_eq_true, if_false]
    rw [show (w.append l : List Char) = w ++ l from rfl, ih hw2 (c :: acc) l]
    simp

theorem wordsAux_append_one_space (c : Char) (hc : isJsSpace c = true) :
    ∀ (l acc : List Char), wordsAux acc (l ++ [c]) = wordsAux acc l := by
  intro l
  induction l with
  | nil =>
    intro acc
    by_cases ha : acc.isEmpty <;> simp [wordsAux, hc, ha]
  | cons d l ih =>
    intro acc
    by_cases hd : isJsSpace d <;> by_cases ha : acc.isEmpty <;>
      simp [wordsAux, hc, hd, ha, ih]

theorem wordsAux_append_spaces (t : List Char) (ht : ∀ c ∈ t, isJsSpace c = true) :
    ∀ (a acc : List Char), wordsAux acc (a ++ t) = wordsAux acc a := by
  induction t with
  | nil => intro a acc; simp
  | cons s t ih =>
    intro a acc
    have hs : isJsSpace s = true := ht s (by simp)
    have ht2 : ∀ c ∈ t, isJsSpace c = true := fun c hcm => ht c (by simp [hcm])
    have h1 : a ++ s :: t = (a ++ [s]) ++ t := by simp
    rw [h1, ih ht2 (a ++ [s]) acc, wordsAux_append_one_space s hs a acc]

theorem wordsAux_dropWhile (l : List Char) :
    wordsAux [] (l.dropWhile isJsSpace) = wordsAux [] l := by
  induction l with
  | nil => rfl
  | cons c l ih =>
    by_cases hc : isJsSpace c
    · rw [List.dropWhile_cons_of_pos hc, ih]
      simp [wordsAux, hc]
    · rw [List.dropWhile_cons_of_neg hc]

theorem wordsOf_jsTrim (l : List Char) : wordsOf (jsTrim l) = wordsOf l := by
  unfold wordsOf jsTrim
  have hdecomp : l.dropWhile isJsSpace =
      ((l.dropWhile isJsSpace).reverse.dropWhile isJsSpace).reverse ++
        ((l.dropWhile isJsSpace).reverse.takeWhile isJsSpace).reverse := by
    conv_lhs => rw [← List.reverse_reverse (l.dropWhile isJsSpace),
      ← List.takeWhile_append_dropWhile (p := isJsSpace)
        (l := (l.dropWhile isJsSpace).reverse)]
    rw [List.reverse_append]
  have hts : ∀ c ∈ ((l.dropWhile isJsSpace).reverse.takeWhile isJsSpace).reverse,
      isJsSpace c = true := by
    intro c hcm
    rw [List.mem_reverse] at hcm
    exact List.mem_takeWhile_imp hcm
  calc wordsAux [] ((l.dropWhile isJsSpace).reverse.dropWhile isJsSpace).reverse
      = wordsAux [] (((l.dropWhile isJsSpace).reverse.dropWhile isJsSpace).reverse ++
          ((l.dropWhile isJsSpace).reverse.takeWhile isJsSpace).reverse) :=
        (wordsAux_append_spaces _ hts _ _).symm
    _ = wordsAux [] (l.dropWhile isJsSpace) := by rw [← hdecomp]
    _ = wordsAux [] l := wordsAux_dropWhile l

theorem wordsAux_nonspace (l : List Char) :
    ∀ (acc : List Char), (∀ c ∈ acc, isJsSpace c = false) →
      ∀ w ∈ wordsAux acc l, ∀ c ∈ w, isJsSpace c = false := by
  induction l with
  | nil =>
    intro acc hacc w hw c hc
    by_cases ha : acc.isEmpty
    · simp [wordsAux, ha] at hw
    · simp [wordsAux, ha] at hw
      subst hw
      exact hacc c (List.mem_reverse.mp hc)
  | cons d l ih =>
    intro acc hacc w hw c hc
    by_cases hd : isJsSpace d
    · by_cases ha : acc.isEmpty
      · simp [wordsAux, hd, ha] at hw
        exact ih [] (by simp) w hw c hc
      · simp [wordsAux, hd, ha] at hw
        rcases hw with hw | hw
        · subst hw
          exact hacc c (List.mem_reverse.mp hc)
        · exact ih [] (by simp) w hw c hc
    · simp only [wordsAux, hd, Bool.false_eq_true, if_false] at hw
      refine ih (d :: acc) ?_ w ?_ c hc
      · intro e he
        rcases List.mem_cons.mp he with he | he
        · subst he
          simpa using hd
        · exact hacc e he
      · simpa using hw

theorem wordsOf_single_word (w : List Char) (hw : ∀ c ∈ w, isJsSpace c = false) :
    wordsOf w = if w.isEmpty then [] else [w] := by
  have h := wordsAux_append_word w hw [] []
  simp only [List.append_nil] at h
  unfold wordsOf
  rw [h]
  cases w with
  | nil => rfl
  | cons c w2 =>
    simp [wordsAux]

theorem wordsOf_joinWithSpace :
    ∀ ws : List (List Char), (∀ w ∈ ws, ∀ c ∈ w, isJsSpace c = false) →
      wordsOf (joinWithSpace ws) = ws.filter (fun w => !w.isEmpty) := by
  intro ws
  induction ws with
  | nil => intro _; rfl
  | cons w ws ih =>
    intro h
    have hw : ∀ c ∈ w, isJsSpace c = false := h w (by simp)
    cases ws with
    | nil =>
      rw [show joinWithSpace [w] = w from rfl, wordsOf_single_word w hw]
      cases w with
      | nil => rfl
      | cons c w2 => rfl
    | cons v ws2 =>
      have h2 : ∀ u ∈ v :: ws2, ∀ c ∈ u, isJsSpace c = false :=
        fun u hu => h u (by simp [hu])
      have hj : joinWithSpace (w :: v :: ws2) = w ++ ' ' :: joinWithSpace (v :: ws2) := rfl
      unfold wordsOf
      rw [hj, wordsAux_append_word w hw]
      have hsp : isJsSpace ' ' = true := rfl
      by_cases he : w.isEmpty
      · have hwnil : w = [] := by
          cases w
          · rfl
          · simp at he
        subst hwnil
        simp only [List.nil_append, wordsAux, hsp, List.isEmpty_nil, if_true, if_pos rfl]
        rw [show (wordsAux [] (joinWithSpace (v :: ws2)) : List (List Char)) =
          wordsOf (joinWithSpace (v :: ws2)) from rfl, ih h2]
        simp
      · have hwne : w.reverse ++ [] ≠ [] := by
          cases w
          · simp at he
          · simp
        have hstep : wordsAux (w.reverse ++ []) (' ' :: joinWithSpace (v :: ws2)) =
            (w.reverse ++ []).reverse :: wordsAux [] (joinWithSpace (v :: ws2)) := by
          have hie : (w.reverse ++ []).isEmpty = false := by
            cases hcc : w.reverse ++ []
            · exact absurd hcc hwne
            · rfl
          simp [wordsAux, hsp, hie]
          intro hcon
          subst hcon
          simp at he
        rw [hstep,
          show (wordsAux [] (joinWithSpace (v :: ws2)) : List (List Char)) =
            wordsOf (joinWithSpace (v :: ws2)) from rfl, ih h2]
        have hfw : (w :: v :: ws2).filter (fun u => !u.isEmpty) =
            w :: (v :: ws2).filter (fun u => !u.isEmpty) :=
          List.filter_cons_of_pos (by simpa using he)
        rw [hfw]
        simp

theorem filter_joinWithSpace (p : Char → Bool) (hp : p ' ' = true) :
    ∀ ws : List (List Char),
      (joinWithSpace ws).filter p = joinWithSpace (ws.map (List.filter p)) := by
  intro ws
  induction ws with
  | nil => rfl
  | cons w ws ih =>
    cases ws with
    | nil => rfl
    | cons v ws2 =>
      show (w ++ ' ' :: joinWithSpace (v :: ws2)).filter p =
        w.filter p ++ ' ' :: joinWithSpace ((v :: ws2).map (List.filter p))
      rw [List.filter_append, List.filter_cons_of_pos hp, ih]

theorem wordsAux_concat_nonspace :
    ∀ (l acc : List Char) (c : Char), isJsSpace c = false →
      (l = [] → acc ≠ []) →
      (∀ d, l.getLast? = some d → isJsSpace d = false) →
      (wordsAux acc (l ++ [c])).length = (wordsAux acc l).length := by
  intro l
  induction l with
  | nil =>
    intro acc c hc hacc _
    have ha : acc.isEmpty = false := by
      cases acc
      · exact absurd rfl (hacc rfl)
      · rfl
    simp [wordsAux, hc, ha]
  | cons a l ih =>
    intro acc c hc hacc hlast
    by_cases haa : isJsSpace a
    · have hl : l ≠ [] := by
        intro h
        subst h
        have hla := hlast a (by simp)
        rw [hla] at haa
        exact absurd haa (by simp)
      have hlast2 : ∀ d, l.getLast? = some d → isJsSpace d = false := by
        intro d hd
        apply hlast
        cases l with
        | nil => exact absurd rfl hl
        | cons b l2 => rw [List.getLast?_cons_cons]; exact hd
      have hrec := ih [] c hc (fun h => absurd h hl) hlast2
      by_cases ha : acc.isEmpty <;>
        simp [wordsAux, haa, ha, hrec]
    · have haa2 : isJsSpace a = false := by simpa using haa
      simp only [List.cons_append, wordsAux, haa2, Bool.false_eq_true, if_false]
      cases l with
      | nil =>
        exact ih (a :: acc) c hc (fun _ => by simp) (fun d hd => by simp at hd)
      | cons b l2 =>
        refine ih (a :: acc) c hc (fun h => by simp at h) ?_
        intro d hd
        apply hlast
        rw [List.getLast?_cons_cons]
        exact hd

theorem mem_jsTrim (l : List Char) (c : Char) (h : c ∈ jsTrim l) : c ∈ l := by
  unfold jsTrim at h
  rw [List.mem_reverse] at h
  have h1 := (List.dropWhile_sublist isJsSpace).subset h
  rw [List.mem_reverse] at h1
  exact (List.dropWhile_sublist isJsSpace).subset h1

theorem jsTrim_last_nonspace (l : List Char) (d : Char)
    (h : (jsTrim l).getLast? = some d) : isJsSpace d = false := by
  unfold jsTrim at h
  rw [List.getLast?_reverse] at h
  have h2 := List.head?_dropWhile_not isJsSpace (l.dropWhile isJsSpace).reverse
  rw [h] at h2
  exact h2

theorem coerced_words_le (z : List Char) :
    (wordsOf (jsTrim ((joinWithSpace ((wordsOf z).take 12)).filter
      (fun c => !isQuoteChar c)))).length ≤ 12 := by
  have hfree : ∀ w ∈ (wordsOf z).take 12, ∀ c ∈ w, isJsSpace c = false := by
    intro w hw
    exact wordsAux_nonspace z [] (by simp) w (List.take_subset 12 _ hw)
  have hfree2 : ∀ w ∈ ((wordsOf z).take 12).map (List.filter (fun c => !isQuoteChar c)),
      ∀ c ∈ w, isJsSpace c = false := by
    intro w hw c hc
    rcases List.mem_map.mp hw with ⟨w0, hw0, rfl⟩
    exact hfree w0 hw0 c (List.mem_filter.mp hc).1
  rw [wordsOf_jsTrim, filter_joinWithSpace _ (by rfl), wordsOf_joinWithSpace _ hfree2]
  calc (List.filter (fun w => !w.isEmpty)
          (((wordsOf z).take 12).map (List.filter (fun c => !isQuoteChar c)))).length
      ≤ (((wordsOf z).take 12).map (List.filter (fun c => !isQuoteChar c))).length :=
        List.length_filter_le _ _
    _ = ((wordsOf z).take 12).length := List.length_map _ _
    _ ≤ 12 := List.length_take_le _ _

/-- C7: for every raw summarizer output, the coercion step returns a string
with at most 12 whitespace-separated words, no quote character, a final
period, and which is never empty; when nothing usable remains the fixed
generic sentence is returned. -/
theorem summaryCoercion_guarantees :
    (∀ s : String,
      (wordsOf (enforceOneSentenceSummary s).data).length ≤ 12 ∧
      (∀ c ∈ (enforceOneSentenceSummary s).data, isQuoteChar c = false) ∧
      (enforceOneSentenceSummary s).data.getLast? = some '.' ∧
      enforceOneSentenceSummary s ≠ "") ∧
    enforceOneSentenceSummary "" = "Here is a brief overview." := by
  refine ⟨fun s => ?_, rfl⟩
  unfold enforceOneSentenceSummary
  dsimp only
  by_cases he : (jsTrim ((joinWithSpace ((wordsOf (jsTrim (s.data.takeWhile
      (fun c => !isSentenceEnd c)))).take 12)).filter (fun c => !isQuoteChar c))).isEmpty
  · rw [if_pos he]
    refine ⟨by decide, by decide, by decide, by decide⟩
  · rw [if_neg he]
    have hbound := coerced_words_le (jsTrim (s.data.takeWhile (fun c => !isSentenceEnd c)))
    have hne : jsTrim ((joinWithSpace ((wordsOf (jsTrim (s.data.takeWhile
        (fun c => !isSentenceEnd c)))).take 12)).filter (fun c => !isQuoteChar c)) ≠ [] := by
      intro hcon
      exact he (by rw [hcon]; rfl)
    have hquotes : ∀ c ∈ jsTrim ((joinWithSpace ((wordsOf (jsTrim (s.data.takeWhile
        (fun c => !isSentenceEnd c)))).take 12)).filter (fun c => !isQuoteChar c)),
        isQuoteChar c = false := by
      intro c hc
      have h1 := mem_jsTrim _ c hc
      have h2 := (List.mem_filter.mp h1).2
      simpa using h2
    by_cases hd : (jsTrim ((joinWithSpace ((wordsOf (jsTrim (s.data.takeWhile
        (fun c => !isSentenceEnd c)))).take 12)).filter
          (fun c => !isQuoteChar c))).getLast? = some '.'
    · rw [if_pos hd]
      refine ⟨hbound, hquotes, hd, ?_⟩
      intro hcon
      apply hne
      have h3 := congrArg String.data hcon
      simpa using h3
    · rw [if_neg hd]
      have hlast : ∀ d, (jsTrim ((joinWithSpace ((wordsOf (jsTrim (s.data.takeWhile
          (fun c => !isSentenceEnd c)))).take 12)).filter
            (fun c => !isQuoteChar c))).getLast? = some d → isJsSpace d = false :=
        fun d hdd => jsTrim_last_nonspace _ d hdd
      refine ⟨?_, ?_, ?_, ?_⟩
      · have hcount := wordsAux_concat_nonspace
          (jsTrim ((joinWithSpace ((wordsOf (jsTrim (s.data.takeWhile
            (fun c => !isSentenceEnd c)))).take 12)).filter (fun c => !isQuoteChar c)))
          [] '.' (by rfl) (fun h => absurd h hne) hlast
        exact hcount.trans_le hbound
      · intro c hc
        simp only [String.data] at hc
        rcases List.mem_append.mp hc with hc | hc
        · exact hquotes c hc
        · rw [List.mem_singleton.mp hc]
          rfl
      · show (_ ++ ['.'] : List Char).getLast? = some '.'
        exact List.getLast?_concat _
      · intro hcon
        have h3 := congrArg String.data hcon
        simp at h3

end LlmWebChat
